import Mathlib

/-!
Verification of the phishing-awareness demo pipeline (src/demo/script.py,
src/jiralib.py, src/linkly.py) against its natural-language specification.

Python strings are embedded as `List Char`.  The Python string primitives
used by the source (`strip`, `lower`, `upper`, `join`, `in`, `count`,
`replace`, `int`) are given executable Lean counterparts below; `count` and
`replace` use Python's greedy left-to-right non-overlapping occurrence
semantics, realised through the greedy splitter `pySplit` (for a non-empty
pattern `p`, Python guarantees `s.count(p) = len(s.split(p)) - 1` and
`s.replace(p, r) = r.join(s.split(p))`).
-/

/-- Embedding of Python `str.strip()`: drop whitespace from both ends. -/
def pyStrip (s : List Char) : List Char :=
  ((s.dropWhile Char.isWhitespace).reverse.dropWhile Char.isWhitespace).reverse

/-- Embedding of Python `str.lower()` (ASCII case folding). -/
def pyLower (s : List Char) : List Char := s.map Char.toLower

/-- Embedding of Python `str.upper()` (ASCII case folding). -/
def pyUpper (s : List Char) : List Char := s.map Char.toUpper

/-- Embedding of Python `sep.join(parts)`. -/
def pyJoin (sep : List Char) : List (List Char) → List Char
  | [] => []
  | [x] => x
  | x :: y :: rest => x ++ sep ++ pyJoin sep (y :: rest)

/-- Embedding of Python `pat in s` (substring containment). -/
def pyContains (pat : List Char) : List Char → Bool
  | [] => pat.isEmpty
  | c :: rest => pat.isPrefixOf (c :: rest) || pyContains pat rest

/-- Fuelled greedy splitter; the fuel is only there to make the recursion
structural, `pySplit` instantiates it with the length of the string. -/
def pySplitF (pat : List Char) : Nat → List Char → List (List Char)
  | _, [] => [[]]
  | 0, s => [s]
  | fuel + 1, c :: rest =>
    if !pat.isEmpty && pat.isPrefixOf (c :: rest) then
      [] :: pySplitF pat fuel (List.drop pat.length (c :: rest))
    else
      match pySplitF pat fuel rest with
      | [] => [[c]]
      | seg :: segs => (c :: seg) :: segs

/-- Embedding of Python `s.split(pat)` for a non-empty separator: greedy
left-to-right non-overlapping matching. -/
def pySplit (pat s : List Char) : List (List Char) :=
  pySplitF pat s.length s

/-- Fuelled scanner for Python `str.replace`; fuel as in `pySplitF`. -/
def pyReplaceF (pat rep : List Char) : Nat → List Char → List Char
  | _, [] => []
  | 0, s => s
  | fuel + 1, c :: rest =>
    if !pat.isEmpty && pat.isPrefixOf (c :: rest) then
      rep ++ pyReplaceF pat rep fuel (List.drop pat.length (c :: rest))
    else
      c :: pyReplaceF pat rep fuel rest

/-- Embedding of Python `s.replace(pat, rep)`: replace every non-overlapping
occurrence of `pat`, scanning left to right. -/
def pyReplace (pat rep s : List Char) : List Char :=
  pyReplaceF pat rep s.length s

/-- Embedding of Python `s.count(pat)` for a non-empty pattern:
number of non-overlapping occurrences. -/
def pyCount (pat s : List Char) : Nat :=
  (pySplit pat s).length - 1

/-- Value of a digit character. -/
def digitVal (c : Char) : Nat := c.toNat - ('0').toNat

/-- Decimal value of a digit string. -/
def digitsVal (s : List Char) : Nat :=
  s.foldl (fun n c => 10 * n + digitVal c) 0

/-- Embedding of Python `int(s)` on strings: optional surrounding
whitespace, optional sign, then a non-empty run of decimal digits;
anything else raises `ValueError`, modelled as `none`. -/
def pyInt (s : List Char) : Option Int :=
  match pyStrip s with
  | [] => none
  | '+' :: rest =>
    if rest ≠ [] ∧ rest.all Char.isDigit then some (digitsVal rest) else none
  | '-' :: rest =>
    if rest ≠ [] ∧ rest.all Char.isDigit then some (-(digitsVal rest : Int)) else none
  | t =>
    if t.all Char.isDigit then some (digitsVal t) else none

/-- Decimal rendering of a natural number, as used by Python f-strings. -/
def natToChars (n : Nat) : List Char := Nat.toDigits 10 n

/-- The newline separator used by the source's `"\n".join` calls. -/
def nlChars : List Char := ['\n']

/-!
## DocumentLoader: `PhishingEmailGenerator.load_prompts_context`
(src/demo/script.py, lines 80-148)

A prompt file is modelled by its basename and its raw contents; the input
list is in filesystem discovery (glob) order.  The source hardcodes the
budget `max_context_chars = 90000`; the model takes the limit as a
parameter so that the spec's quantification over limits can be stated, and
`max_context_chars` records the source's default.
-/

/-- One `*.txt` source under the prompts directory: basename and raw text. -/
structure PromptFile where
  name : List Char
  content : List Char
deriving DecidableEq, Repr

/-- `"context" in os.path.basename(f).lower()` (script.py lines 104-105, 134). -/
def isContextFile (f : PromptFile) : Bool :=
  pyContains (("context").data) (pyLower f.name)

/-- `sorted_files = context_files + other_files` (script.py lines 103-108). -/
def sortedFiles (files : List PromptFile) : List PromptFile :=
  files.filter isContextFile ++ files.filter (fun f => !isContextFile f)

/-- The source's hardcoded budget (script.py line 117). -/
def max_context_chars : Nat := 90000

/-- The suffix appended to a truncated fragment (script.py line 129). -/
def truncMarker : List Char := ("... [truncated]").data

/-- Section header emitted before a fragment's content
(script.py lines 134-135). -/
def headerOf (f : PromptFile) : List Char :=
  nlChars ++ ("--- ").data ++ pyUpper f.name
    ++ (if isContextFile f then (" [PRIORITY]").data else [])
    ++ (" ---").data

/-- Loop state of `load_prompts_context`: the accumulated `context_parts`,
the running `total_chars`, and (bookkeeping for the proofs, not present in
the source) the list of fragments actually emitted together with the
content string each one contributed. -/
structure LoadState where
  parts : List (List Char)
  total : Nat
  emitted : List (PromptFile × List Char)
deriving DecidableEq, Repr

/-- One iteration of the `for file_path in sorted_files` loop
(script.py lines 119-142): strip, skip empty, truncate-or-skip on budget
overflow, otherwise append header and content and consume budget. -/
def loadStep (limit : Nat) (st : LoadState) (f : PromptFile) : LoadState :=
  let content := pyStrip f.content
  if content.isEmpty then st
  else if limit < st.total + content.length then
    let remaining := limit - st.total
    if 100 < remaining then
      let content' := content.take remaining ++ truncMarker
      { parts := st.parts ++ [headerOf f, content'],
        total := st.total + content'.length,
        emitted := st.emitted ++ [(f, content')] }
    else st
  else
    { parts := st.parts ++ [headerOf f, content],
      total := st.total + content.length,
      emitted := st.emitted ++ [(f, content)] }

/-- Leading banner (script.py line 114). -/
def contextBanner : List Char := ("=== CONTEXT INFORMATION ===").data

/-- Trailing banner (script.py line 144). -/
def endBanner : List Char := ("\n=== END OF CONTEXT ===\n").data

/-- Initial loop state: banner already appended, nothing consumed. -/
def loadInit : LoadState := { parts := [contextBanner], total := 0, emitted := [] }

/-- State after the whole loop over the prioritised file list. -/
def loadPromptsState (limit : Nat) (files : List PromptFile) : LoadState :=
  List.foldl (loadStep limit) loadInit (sortedFiles files)

/-- The final `context_parts` (loop result plus trailing banner). -/
def loadPromptsParts (limit : Nat) (files : List PromptFile) : List (List Char) :=
  (loadPromptsState limit files).parts ++ [endBanner]

/-- `load_prompts_context` result: the empty string when no `*.txt` files
were found (script.py lines 99-101), otherwise `"\n".join(context_parts)`
(script.py line 147). -/
def load_prompts_context (limit : Nat) (files : List PromptFile) : List Char :=
  if files.isEmpty then [] else pyJoin nlChars (loadPromptsParts limit files)

/-- Per-fragment share of the rendered block not counted against the
budget: the section header plus the two join separators it brings. -/
def headerOverhead (files : List PromptFile) : Nat :=
  ((sortedFiles files).map (fun f => (headerOf f).length + 2)).sum

/-- Fixed share of the rendered block not counted against the budget:
the two banners plus their join separators. -/
def bannerOverhead : Nat := contextBanner.length + endBanner.length + 2

/-!
## RecordNormalizer: `extract_issue_details` (src/jiralib.py, lines 51-83)

A raw JIRA issue object is modelled by the fields the source accesses.
Python attribute values that may be `None` (or whose truthiness the source
tests) are modelled as `Option`; `resolution` carries its `name` and
`description` together, mirroring the single `issue.fields.resolution`
object.  The `dir(issue.fields)` introspection that collects custom fields
is modelled by an association list of dynamic field names and values.
-/

/-- Raw issue object, restricted to the fields `extract_issue_details`
reads.  `none` models an absent (`None`) attribute. -/
structure RawIssue where
  key : List Char
  summary : List Char
  status_name : List Char
  priority_name : Option (List Char)
  issuetype_name : List Char
  reporter_displayName : Option (List Char)
  assignee_displayName : Option (List Char)
  created : List Char
  updated : List Char
  duedate : Option (List Char)
  project_name : List Char
  project_key : List Char
  description : Option (List Char)
  comment_total : Option Nat
  labels : Option (List (List Char))
  components : Option (List (List Char))
  resolution : Option (List Char × List Char)
  dynamicFields : List (List Char × List Char)
deriving DecidableEq, Repr

/-- Normalised ticket record (the dictionary built by
`extract_issue_details`). -/
structure IssueData where
  key : List Char
  summary : List Char
  status : List Char
  priority : List Char
  issue_type : List Char
  reporter : List Char
  assignee : List Char
  created : List Char
  updated : List Char
  due_date : Option (List Char)
  project_name : List Char
  project_key : List Char
  description : Option (List Char)
  comments_count : Nat
  labels : List (List Char)
  components : List (List Char)
  resolution : Option (List Char)
  resolution_description : Option (List Char)
  custom_fields : List (List Char × List Char)
deriving DecidableEq, Repr

/-- `description[:200] + "..." if description and len(description) > 200
else description` (jiralib.py line 66). -/
def normalizeDescription (d : Option (List Char)) : Option (List Char) :=
  match d with
  | none => none
  | some s => if !s.isEmpty && decide (200 < s.length)
              then some (s.take 200 ++ ("...").data)
              else some s

/-- Python truthiness of an optional string: present and non-empty. -/
def optTruthy (o : Option (List Char)) : Bool :=
  match o with
  | none => false
  | some s => !s.isEmpty

/-- `x if x else None`: an absent or empty optional string collapses to
`None`. -/
def noneIfFalsy (o : Option (List Char)) : Option (List Char) :=
  match o with
  | none => none
  | some s => if s.isEmpty then none else some s

/-- `extract_issue_details` (jiralib.py lines 51-83). -/
def extract_issue_details (i : RawIssue) : IssueData :=
  { key := i.key
    summary := i.summary
    status := i.status_name
    priority := match i.priority_name with
                | some p => p
                | none => ("None").data
    issue_type := i.issuetype_name
    reporter := match i.reporter_displayName with
                | some r => r
                | none => ("None").data
    assignee := match i.assignee_displayName with
                | some a => a
                | none => ("Unassigned").data
    created := i.created
    updated := i.updated
    due_date := noneIfFalsy i.duedate
    project_name := i.project_name
    project_key := i.project_key
    description := normalizeDescription i.description
    comments_count := match i.comment_total with
                      | some n => n
                      | none => 0
    labels := match i.labels with
              | some l => if l.isEmpty then [] else l
              | none => []
    components := match i.components with
                  | some l => if l.isEmpty then [] else l
                  | none => []
    resolution := i.resolution.map (fun r => r.1)
    resolution_description := i.resolution.map (fun r => r.2)
    custom_fields := i.dynamicFields.filter
      (fun p => (("customfield_").data).isPrefixOf p.1 && !p.2.isEmpty) }

/-!
## TicketSet renderer: `create_jira_tickets_context`
(src/demo/script.py, lines 150-195)
-/

/-- The lines appended for the `i`-th displayed ticket
(script.py lines 166-187). -/
def ticketEntry (i : Nat) (t : IssueData) : List (List Char) :=
  [("TICKET #").data ++ natToChars i ++ (": ").data ++ t.key,
   ("Summary: ").data ++ t.summary,
   ("Status: ").data ++ t.status,
   ("Priority: ").data ++ t.priority,
   ("Issue Type: ").data ++ t.issue_type,
   ("Assignee: ").data ++ t.assignee,
   ("Reporter: ").data ++ t.reporter,
   ("Project: ").data ++ t.project_name ++ (" (").data ++ t.project_key ++ (")").data,
   ("Created: ").data ++ t.created,
   ("Updated: ").data ++ t.updated]
  ++ (match t.description with
      | some d => if d.isEmpty then [] else [("Description: ").data ++ d]
      | none => [])
  ++ (if t.labels.isEmpty then [] else [("Labels: ").data ++ pyJoin ((", ").data) t.labels])
  ++ (if t.components.isEmpty then []
      else [("Components: ").data ++ pyJoin ((", ").data) t.components])
  ++ [("---").data]

/-- `for i, ticket in enumerate(self.jira_tickets[:5], 1)`: entries for the
displayed tickets, numbering from `i`. -/
def ticketEntries (i : Nat) : List IssueData → List (List Char)
  | [] => []
  | t :: ts => ticketEntry i t ++ ticketEntries (i + 1) ts

/-- The note appended when more than five tickets exist
(script.py line 190). -/
def additionalNote (n : Nat) : List Char :=
  ("[Additional ").data ++ natToChars n ++ (" tickets not shown for brevity]").data

/-- The full `context_parts` list for a non-empty ticket list
(script.py lines 161-192). -/
def ticketContextParts (tickets : List IssueData) : List (List Char) :=
  [("=== RECENT JIRA TICKETS FOR TARGET USER ===").data,
   ("Total Active Tickets: ").data ++ natToChars tickets.length,
   []]
  ++ ticketEntries 1 (tickets.take 5)
  ++ (if 5 < tickets.length then [additionalNote (tickets.length - 5)] else [])
  ++ [("=== END OF JIRA TICKETS ===\n").data]

/-- `create_jira_tickets_context`: the empty string when no tickets are
stored (script.py lines 157-159), otherwise `"\n".join(context_parts)`. -/
def create_jira_tickets_context (tickets : List IssueData) : List Char :=
  if tickets.isEmpty then [] else pyJoin nlChars (ticketContextParts tickets)

/-!
## PlaceholderLinkSubstitutor: `replace_links_with_linkly`
(src/demo/script.py, lines 251-313) and `create_linkly_oneshot_link`
(src/linkly.py, lines 6-27)

The three Linkly environment variables are modelled as optional strings
(`os.getenv` returns `None` when unset).  The network call inside the
`try` block is an external effect; its possible outcomes are modelled by
`MintOutcome`: the call raised an exception, returned `None`, returned a
dict without a usable `full_url` entry, or returned a dict whose
`full_url` value is the given string.  The substitutor core is
parameterised by that outcome; the pipeline's actual call site is the
constant `linklyCallSiteOutcome` below.
-/

/-- Linkly credentials as read from the environment (script.py
lines 37-39). -/
structure LinklyCreds where
  linkly_email : Option (List Char)
  linkly_api_key : Option (List Char)
  linkly_workspace_id : Option (List Char)
deriving DecidableEq, Repr

/-- `all([self.linkly_email, self.linkly_api_key, self.linkly_workspace_id])`
(script.py line 266): every credential present and non-empty. -/
def credsTruthy (c : LinklyCreds) : Bool :=
  optTruthy c.linkly_email && optTruthy c.linkly_api_key
    && optTruthy c.linkly_workspace_id

/-- Outcome of the `create_linkly_oneshot_link(...)` call inside the
`try` block (script.py lines 284-290). -/
inductive MintOutcome where
  | raised : MintOutcome
  | noResponse : MintOutcome
  | response (full_url : Option (List Char)) : MintOutcome
deriving DecidableEq, Repr

/-- The placeholder marker `"LINK_HERE"`. -/
def linkMarker : List Char := ("LINK_HERE").data

/-- `replace_links_with_linkly` with the mint-call outcome as a parameter
(script.py lines 251-313); second component counts how many times the
mint call is started.  A `response none` models a returned dict without
the `full_url` key (its lookup raises `KeyError`, caught by the same
`except`); `response (some [])` models an empty URL, which fails the
`if short_url:` test. -/
def replace_links_core (creds : LinklyCreds) (outcome : MintOutcome)
    (phishing_email : List Char) : List Char × Nat :=
  if !pyContains linkMarker phishing_email then (phishing_email, 0)
  else if !credsTruthy creds then (phishing_email, 0)
  else
    match creds.linkly_workspace_id with
    | none => (phishing_email, 0)
    | some wid =>
      match pyInt wid with
      | none => (phishing_email, 0)
      | some _ =>
        match outcome with
        | .raised => (phishing_email, 1)
        | .noResponse => (phishing_email, 1)
        | .response none => (phishing_email, 1)
        | .response (some short_url) =>
          if short_url.isEmpty then (phishing_email, 1)
          else (pyReplace linkMarker short_url phishing_email, 1)

/-- The parameters `create_linkly_oneshot_link` requires
(linkly.py line 6). -/
def linklyRequiredParams : List (List Char) :=
  [("email").data, ("api_key").data, ("workspace_id").data,
   ("url").data, ("name").data, ("utm_source").data]

/-- The keyword arguments the call site actually passes
(script.py lines 285-290). -/
def linklyCallSiteArgs : List (List Char) :=
  [("email").data, ("api_key").data, ("workspace_id").data, ("url").data]

/-- Outcome of the pipeline's actual call: the call site omits the
required parameters `name` and `utm_source` of
`create_linkly_oneshot_link`, so Python raises `TypeError` at the call
itself, before any request is sent; the surrounding `except Exception`
catches it. -/
def linklyCallSiteOutcome : MintOutcome := MintOutcome.raised

/-- `replace_links_with_linkly` as it actually runs in the pipeline. -/
def replace_links_with_linkly (creds : LinklyCreds)
    (phishing_email : List Char) : List Char :=
  (replace_links_core creds linklyCallSiteOutcome phishing_email).1

/-!
## ContextAssembler: `generate_phishing_email` prompt construction
(src/demo/script.py, lines 197-226)
-/

/-- The fixed base instruction (script.py line 217). -/
def basePrompt0 : List Char :=
  ("Generate a phishing email for cybersecurity awareness training").data

/-- `base_prompt` after the optional impersonation and target clauses
(script.py lines 217-223). -/
def buildBasePrompt (target_email impersonate : List Char) : List Char :=
  let b1 := if !impersonate.isEmpty
            then basePrompt0 ++ (" The email should appear to come from ").data
                  ++ impersonate ++ (".").data
            else basePrompt0
  if !target_email.isEmpty
  then b1 ++ (" The target is ").data ++ target_email ++ (".").data
  else b1

/-- Generator state entering `generate_phishing_email`: the possibly
cached documents block `self.context`, the stored tickets, and the prompt
files the loader would read on a cache miss. -/
structure GenState where
  context : List Char
  jira_tickets : List IssueData
  prompt_files : List PromptFile
deriving DecidableEq, Repr

/-- The fixed instruction lead-in of the f-string (script.py line 226). -/
def instrLead : List Char :=
  ("Based on the above organizational context and recent JIRA tickets, ").data

/-- `full_prompt` (script.py lines 211-226): reuse the cached documents
block if non-empty, else reload; always rebuild the ticket block from the
current tickets; then the fixed f-string layout. -/
def generate_full_prompt (st : GenState) (target_email impersonate : List Char) :
    List Char :=
  let prompts_context := if !st.context.isEmpty then st.context
                         else load_prompts_context max_context_chars st.prompt_files
  let jira_context := create_jira_tickets_context st.jira_tickets
  prompts_context ++ nlChars ++ jira_context ++ nlChars ++ nlChars
    ++ instrLead ++ buildBasePrompt target_email impersonate

/-!
## Concrete sample data used by witnesses and counterexamples
-/

/-- A raw issue whose optional fields are all absent. -/
def sampleRawIssue : RawIssue :=
  { key := ("T-1").data
    summary := ("s").data
    status_name := ("Open").data
    priority_name := none
    issuetype_name := ("Task").data
    reporter_displayName := none
    assignee_displayName := none
    created := ("c").data
    updated := ("u").data
    duedate := none
    project_name := ("P").data
    project_key := ("PK").data
    description := none
    comment_total := none
    labels := none
    components := none
    resolution := none
    dynamicFields := [] }

/-- A minimal normalised ticket with the given key. -/
def sampleTicket (k : List Char) : IssueData :=
  { key := k
    summary := ("s").data
    status := ("Open").data
    priority := ("None").data
    issue_type := ("Task").data
    reporter := ("None").data
    assignee := ("Unassigned").data
    created := ("c").data
    updated := ("u").data
    due_date := none
    project_name := ("P").data
    project_key := ("PK").data
    description := none
    comments_count := 0
    labels := []
    components := []
    resolution := none
    resolution_description := none
    custom_fields := [] }

/-- Seven sample tickets. -/
def sampleTickets7 : List IssueData :=
  [sampleTicket (("K-1").data), sampleTicket (("K-2").data),
   sampleTicket (("K-3").data), sampleTicket (("K-4").data),
   sampleTicket (("K-5").data), sampleTicket (("K-6").data),
   sampleTicket (("K-7").data)]

/-- Complete, valid Linkly credentials. -/
def sampleCreds : LinklyCreds :=
  { linkly_email := some (("e@x").data)
    linkly_api_key := some (("key").data)
    linkly_workspace_id := some (("7").data) }

/-!
## Helper lemmas on the Python string primitives
-/

theorem ipo_append (p t : List Char) : p.isPrefixOf (p ++ t) = true := by
  induction p with
  | nil => simp [List.isPrefixOf]
  | cons a as ih => simp [List.isPrefixOf, ih]

theorem ipo_iff (p : List Char) :
    ∀ s, p.isPrefixOf s = true ↔ ∃ t, s = p ++ t := by
  induction p with
  | nil => intro s; simp [List.isPrefixOf]
  | cons a as ih =>
    intro s
    cases s with
    | nil => simp [List.isPrefixOf]
    | cons b bs =>
      simp only [List.isPrefixOf, Bool.and_eq_true, beq_iff_eq, ih bs]
      constructor
      · rintro ⟨hab, t, ht⟩
        exact ⟨t, by simp [hab, ht]⟩
      · rintro ⟨t, ht⟩
        simp only [List.cons_append, List.cons.injEq] at ht
        exact ⟨ht.1.symm, t, ht.2⟩

theorem ipo_extend (p a t : List Char) (h : p.isPrefixOf a = true) :
    p.isPrefixOf (a ++ t) = true := by
  obtain ⟨u, hu⟩ := (ipo_iff p a).mp h
  subst hu
  rw [List.append_assoc]
  exact ipo_append p (u ++ t)

theorem ipo_append_false (p : List Char) :
    ∀ q x, p.isPrefixOf q = false → q.isPrefixOf p = false →
      p.isPrefixOf (q ++ x) = false := by
  induction p with
  | nil => intro q x h1 _; simp [List.isPrefixOf] at h1
  | cons a as ih =>
    intro q x h1 h2
    cases q with
    | nil => simp [List.isPrefixOf] at h2
    | cons b bs =>
      simp only [List.cons_append, List.isPrefixOf] at h1 h2 ⊢
      cases hab : (a == b) with
      | false => simp [hab]
      | true =>
        rw [hab, Bool.true_and] at h1
        rw [Bool.true_and]
        have hab' : a = b := by simpa using hab
        have hba : (b == a) = true := by simp [hab']
        rw [hba, Bool.true_and] at h2
        exact ih bs x h1 h2

theorem ipo_append_head (p : List Char) :
    ∀ a r, p.isPrefixOf (a ++ r) = true → p.isPrefixOf a = false →
      ∃ c, r.head? = some c ∧ c ∈ p := by
  induction p with
  | nil => intro a r _ h2; simp [List.isPrefixOf] at h2
  | cons pc ps ih =>
    intro a r h1 h2
    cases a with
    | nil =>
      cases r with
      | nil => simp [List.isPrefixOf] at h1
      | cons rc rs =>
        simp only [List.nil_append, List.isPrefixOf, Bool.and_eq_true, beq_iff_eq] at h1
        exact ⟨rc, rfl, by simp [h1.1]⟩
    | cons b as =>
      simp only [List.cons_append, List.isPrefixOf, Bool.and_eq_true, beq_iff_eq] at h1
      have hpcb : (pc == b) = true := by simp [h1.1]
      simp only [List.isPrefixOf, hpcb, Bool.true_and] at h2
      obtain ⟨c, hc, hcp⟩ := ih as r h1.2 h2
      exact ⟨c, hc, List.mem_cons_of_mem _ hcp⟩

theorem pyContains_iff (pat : List Char) :
    ∀ s, pyContains pat s = true ↔ ∃ a b, s = a ++ pat ++ b := by
  intro s
  induction s with
  | nil =>
    cases pat with
    | nil => simp [pyContains]
    | cons pc ps =>
      simp only [pyContains, List.isEmpty_cons]
      constructor
      · intro h; cases h
      · rintro ⟨a, b, hab⟩
        exact absurd hab.symm (by simp)
  | cons c rest ih =>
    simp only [pyContains, Bool.or_eq_true, ih, ipo_iff]
    constructor
    · rintro (⟨t, ht⟩ | ⟨a, b, hab⟩)
      · exact ⟨[], t, by simp [ht]⟩
      · exact ⟨c :: a, b, by simp [hab]⟩
    · rintro ⟨a, b, hab⟩
      cases a with
      | nil => exact Or.inl ⟨b, by simpa using hab⟩
      | cons a0 as =>
        simp only [List.cons_append, List.cons.injEq] at hab
        exact Or.inr ⟨as, b, hab.2⟩

theorem pyContains_nonempty_false (pat : List Char) (hpat : pat ≠ []) :
    pyContains pat [] = false := by
  cases pat with
  | nil => exact absurd rfl hpat
  | cons pc ps => rfl

theorem pyContains_append_disjoint (pat : List Char) (hpat : pat ≠ []) :
    ∀ u t, (∀ c ∈ u, c ∉ pat) → pyContains pat (u ++ t) = pyContains pat t := by
  intro u
  induction u with
  | nil => intro t _; rfl
  | cons d u' ih =>
    intro t hd
    simp only [List.cons_append, pyContains, List.append_eq]
    have hpre : pat.isPrefixOf (d :: (u' ++ t)) = false := by
      cases pat with
      | nil => exact absurd rfl hpat
      | cons pc ps =>
        cases hpd : (pc == d) with
        | false => simp [List.isPrefixOf, hpd]
        | true =>
          exfalso
          have hpd' : pc = d := by simpa using hpd
          exact hd d (by simp) (by rw [← hpd']; simp)
    rw [hpre, Bool.false_or]
    exact ih t (fun c hc => hd c (List.mem_cons_of_mem _ hc))

theorem pyContains_append_of_head (pat : List Char) :
    ∀ x r, pyContains pat x = false →
      (∀ c, r.head? = some c → c ∉ pat) →
      pyContains pat (x ++ r) = pyContains pat r := by
  intro x
  induction x with
  | nil => intro r _ _; rfl
  | cons c x' ih =>
    intro r hx hr
    simp only [pyContains, Bool.or_eq_false_iff] at hx
    simp only [List.cons_append, pyContains, List.append_eq]
    have hpre : pat.isPrefixOf (c :: (x' ++ r)) = false := by
      cases hq : pat.isPrefixOf (c :: (x' ++ r)) with
      | false => rfl
      | true =>
        exfalso
        have hq' : pat.isPrefixOf ((c :: x') ++ r) = true := by
          simpa using hq
        obtain ⟨e, he, hep⟩ := ipo_append_head pat (c :: x') r hq' hx.1
        exact hr e he hep
    rw [hpre, Bool.false_or]
    exact ih r hx.2 hr

theorem pyJoin_cons_cons (sep x y : List Char) (rest : List (List Char)) :
    pyJoin sep (x :: y :: rest) = x ++ sep ++ pyJoin sep (y :: rest) := rfl

theorem pyJoin_cons_head (sep x : List Char) (c : Char) (xs : List (List Char)) :
    pyJoin sep ((c :: x) :: xs) = c :: pyJoin sep (x :: xs) := by
  cases xs with
  | nil => rfl
  | cons y rest => rfl

theorem pyJoin_cons_decomp (sep x : List Char) (xs : List (List Char)) :
    ∃ t, pyJoin sep (x :: xs) = x ++ t := by
  cases xs with
  | nil => exact ⟨[], by simp [pyJoin]⟩
  | cons y rest =>
    exact ⟨sep ++ pyJoin sep (y :: rest), by rw [pyJoin_cons_cons, List.append_assoc]⟩

theorem mem_pyJoin (sep : List Char) :
    ∀ segs : List (List Char), ∀ seg ∈ segs, ∀ c ∈ seg, c ∈ pyJoin sep segs := by
  intro segs
  induction segs with
  | nil => intro seg hseg; cases hseg
  | cons s ss ih =>
    intro seg hseg c hc
    cases ss with
    | nil =>
      simp only [List.mem_singleton] at hseg
      subst hseg
      exact hc
    | cons s2 r =>
      rw [pyJoin_cons_cons]
      rcases List.mem_cons.mp hseg with h | h
      · subst h
        simp [List.mem_append, hc]
      · have := ih seg h c hc
        simp [List.mem_append, this]

theorem pySplitF_fuel (pat : List Char) :
    ∀ n f s, s.length ≤ n → s.length ≤ f →
      pySplitF pat f s = pySplitF pat s.length s := by
  intro n
  induction n with
  | zero =>
    intro f s hn _
    have hs : s = [] := List.eq_nil_of_length_eq_zero (Nat.le_zero.mp hn)
    subst hs
    cases f <;> rfl
  | succ n ih =>
    intro f s hn hf
    cases s with
    | nil => cases f <;> rfl
    | cons c rest =>
      cases f with
      | zero => simp at hf
      | succ f' =>
        have hrest_n : rest.length ≤ n := by simpa using hn
        have hrest_f : rest.length ≤ f' := by simpa using hf
        show pySplitF pat (f' + 1) (c :: rest) = pySplitF pat (rest.length + 1) (c :: rest)
        simp only [pySplitF]
        by_cases hcond : (!pat.isEmpty && pat.isPrefixOf (c :: rest)) = true
        · rw [if_pos hcond, if_pos hcond]
          have hplen : 1 ≤ pat.length := by
            cases pat with
            | nil => simp at hcond
            | cons p ps => simp
          have hdlen : (List.drop pat.length (c :: rest)).length ≤ rest.length := by
            simp only [List.length_drop, List.length_cons]
            omega
          rw [ih f' _ (Nat.le_trans hdlen hrest_n) (Nat.le_trans hdlen hrest_f),
              ih rest.length _ (Nat.le_trans hdlen hrest_n) hdlen]
        · rw [if_neg hcond, if_neg hcond]
          rw [ih f' rest hrest_n hrest_f]

theorem pySplit_cons (pat : List Char) (c : Char) (rest : List Char) :
    pySplit pat (c :: rest) =
      if !pat.isEmpty && pat.isPrefixOf (c :: rest) then
        [] :: pySplit pat (List.drop pat.length (c :: rest))
      else
        match pySplit pat rest with
        | [] => [[c]]
        | seg :: segs => (c :: seg) :: segs := by
  show pySplitF pat ((c :: rest).length) (c :: rest) = _
  simp only [List.length_cons, pySplitF]
  by_cases hcond : (!pat.isEmpty && pat.isPrefixOf (c :: rest)) = true
  · rw [if_pos hcond, if_pos hcond]
    have hplen : 1 ≤ pat.length := by
      cases pat with
      | nil => simp at hcond
      | cons p ps => simp
    have hdlen : (List.drop pat.length (c :: rest)).length ≤ rest.length := by
      simp only [List.length_drop, List.length_cons]
      omega
    rw [pySplitF_fuel pat rest.length rest.length _ hdlen hdlen]
    rfl
  · rw [if_neg hcond, if_neg hcond]
    rfl

theorem pySplitF_ne_nil (pat : List Char) :
    ∀ f s, pySplitF pat f s ≠ [] := by
  intro f
  induction f with
  | zero => intro s; cases s <;> simp [pySplitF]
  | succ f ih =>
    intro s
    cases s with
    | nil => simp [pySplitF]
    | cons c rest =>
      simp only [pySplitF]
      by_cases hcond : (!pat.isEmpty && pat.isPrefixOf (c :: rest)) = true
      · rw [if_pos hcond]; simp
      · rw [if_neg hcond]
        cases hm : pySplitF pat f rest with
        | nil => exact absurd hm (ih rest)
        | cons a b => simp

theorem pySplit_ne_nil (pat s : List Char) : pySplit pat s ≠ [] :=
  pySplitF_ne_nil pat s.length s

theorem pyJoin_pySplit (pat : List Char) :
    ∀ n s, s.length ≤ n → pyJoin pat (pySplit pat s) = s := by
  intro n
  induction n with
  | zero =>
    intro s hn
    have hs : s = [] := List.eq_nil_of_length_eq_zero (Nat.le_zero.mp hn)
    subst hs
    rfl
  | succ n ih =>
    intro s hn
    cases s with
    | nil => rfl
    | cons c rest =>
      have hrest : rest.length ≤ n := by simpa using hn
      rw [pySplit_cons]
      by_cases hcond : (!pat.isEmpty && pat.isPrefixOf (c :: rest)) = true
      · rw [if_pos hcond]
        obtain ⟨hp1, hp2⟩ : (!pat.isEmpty) = true ∧ pat.isPrefixOf (c :: rest) = true := by
          simpa using hcond
        obtain ⟨t, ht⟩ := (ipo_iff pat (c :: rest)).mp hp2
        have hplen : 1 ≤ pat.length := by
          cases pat with
          | nil => simp at hp1
          | cons p ps => simp
        have hd : List.drop pat.length (c :: rest) = t := by
          rw [ht, List.drop_left]
        rw [hd]
        have htlen : t.length ≤ n := by
          have hlen : (c :: rest).length = pat.length + t.length := by
            rw [ht]; simp
          simp only [List.length_cons] at hlen
          omega
        obtain ⟨seg, segs, hsegs⟩ := List.exists_cons_of_ne_nil (pySplit_ne_nil pat t)
        rw [hsegs, pyJoin_cons_cons]
        have hjoin : pyJoin pat (seg :: segs) = t := by
          rw [← hsegs]
          exact ih t htlen
        rw [hjoin]
        simp [ht]
      · rw [if_neg hcond]
        obtain ⟨seg, segs, hsegs⟩ := List.exists_cons_of_ne_nil (pySplit_ne_nil pat rest)
        rw [hsegs]
        show pyJoin pat ((c :: seg) :: segs) = c :: rest
        rw [pyJoin_cons_head, ← hsegs, ih rest hrest]

theorem pySplit_head_prefix (pat s : List Char) :
    ∃ seg segs t, pySplit pat s = seg :: segs ∧ s = seg ++ t := by
  obtain ⟨seg, segs, hsegs⟩ := List.exists_cons_of_ne_nil (pySplit_ne_nil pat s)
  obtain ⟨t, ht⟩ := pyJoin_cons_decomp pat seg segs
  have hid := pyJoin_pySplit pat s.length s le_rfl
  rw [hsegs, ht] at hid
  exact ⟨seg, segs, t, hsegs, hid.symm⟩

theorem pySplit_not_contains (pat : List Char) (hpat : pat ≠ []) :
    ∀ n s, s.length ≤ n → ∀ seg ∈ pySplit pat s, pyContains pat seg = false := by
  intro n
  induction n with
  | zero =>
    intro s hn seg hseg
    have hs : s = [] := List.eq_nil_of_length_eq_zero (Nat.le_zero.mp hn)
    subst hs
    have hseg' : seg ∈ ([[]] : List (List Char)) := hseg
    simp only [List.mem_singleton] at hseg'
    subst hseg'
    exact pyContains_nonempty_false pat hpat
  | succ n ih =>
    intro s hn seg hseg
    cases s with
    | nil =>
      have hseg' : seg ∈ ([[]] : List (List Char)) := hseg
      simp only [List.mem_singleton] at hseg'
      subst hseg'
      exact pyContains_nonempty_false pat hpat
    | cons c rest =>
      have hrest : rest.length ≤ n := by simpa using hn
      rw [pySplit_cons] at hseg
      by_cases hcond : (!pat.isEmpty && pat.isPrefixOf (c :: rest)) = true
      · rw [if_pos hcond] at hseg
        rcases List.mem_cons.mp hseg with h | h
        · subst h
          exact pyContains_nonempty_false pat hpat
        · have hplen : 1 ≤ pat.length := by
            cases pat with
            | nil => exact absurd rfl hpat
            | cons p ps => simp
          have hdlen : (List.drop pat.length (c :: rest)).length ≤ rest.length := by
            simp only [List.length_drop, List.length_cons]
            omega
          exact ih _ (Nat.le_trans hdlen hrest) seg h
      · rw [if_neg hcond] at hseg
        obtain ⟨seg0, segs, t, hsegs, hpre⟩ := pySplit_head_prefix pat rest
        rw [hsegs] at hseg
        have hseg' : seg ∈ (c :: seg0) :: segs := hseg
        rcases List.mem_cons.mp hseg' with h | h
        · subst h
          have hns : pyContains pat seg0 = false :=
            ih rest hrest seg0 (by rw [hsegs]; simp)
          have hnp : pat.isPrefixOf (c :: seg0) = false := by
            cases hq : pat.isPrefixOf (c :: seg0) with
            | false => rfl
            | true =>
              exfalso
              have hext : pat.isPrefixOf ((c :: seg0) ++ t) = true :=
                ipo_extend _ _ _ hq
              have hcr : (c :: seg0) ++ t = c :: rest := by
                rw [hpre]; rfl
              rw [hcr] at hext
              have hne : (!pat.isEmpty) = true := by
                cases pat with
                | nil => exact absurd rfl hpat
                | cons p ps => simp
              exact hcond (by simp [hne, hext])
          simp [pyContains, hnp, hns]
        · exact ih rest hrest seg (by rw [hsegs]; exact List.mem_cons_of_mem _ h)

theorem pySplit_append_disjoint (u : List Char) (hu : u ≠ []) :
    ∀ x t, (∀ c ∈ x, c ∉ u) → pySplit u (x ++ (u ++ t)) = x :: pySplit u t := by
  intro x
  induction x with
  | nil =>
    intro t _
    cases u with
    | nil => exact absurd rfl hu
    | cons uc us =>
      simp only [List.nil_append]
      rw [show ((uc :: us) ++ t) = uc :: (us ++ t) from rfl, pySplit_cons]
      have hcond : (!(uc :: us).isEmpty
          && (uc :: us).isPrefixOf (uc :: (us ++ t))) = true := by
        simp only [List.isEmpty_cons, Bool.not_false, Bool.true_and]
        exact ipo_append (uc :: us) t
      rw [if_pos hcond]
      have hd : List.drop (uc :: us).length (uc :: (us ++ t)) = t := by
        rw [show (uc :: (us ++ t)) = ((uc :: us) ++ t) from rfl, List.drop_left]
      rw [hd]
  | cons c x' ih =>
    intro t hx
    rw [show ((c :: x') ++ (u ++ t)) = c :: (x' ++ (u ++ t)) from rfl, pySplit_cons]
    have hpre : u.isPrefixOf (c :: (x' ++ (u ++ t))) = false := by
      cases u with
      | nil => exact absurd rfl hu
      | cons uc us =>
        cases huc : (uc == c) with
        | false => simp [List.isPrefixOf, huc]
        | true =>
          exfalso
          have huc' : uc = c := by simpa using huc
          exact hx c (by simp) (by rw [← huc']; simp)
    have hcond : (!u.isEmpty && u.isPrefixOf (c :: (x' ++ (u ++ t)))) = false := by
      rw [hpre, Bool.and_false]
    rw [if_neg (by rw [hcond]; simp)]
    rw [ih t (fun e he => hx e (List.mem_cons_of_mem _ he))]

theorem pySplit_single (u : List Char) (hu : u ≠ []) :
    ∀ s, (∀ c ∈ s, c ∉ u) → pySplit u s = [s] := by
  intro s
  induction s with
  | nil => intro _; rfl
  | cons c s' ih =>
    intro hs
    rw [pySplit_cons]
    have hpre : u.isPrefixOf (c :: s') = false := by
      cases u with
      | nil => exact absurd rfl hu
      | cons uc us =>
        cases huc : (uc == c) with
        | false => simp [List.isPrefixOf, huc]
        | true =>
          exfalso
          have huc' : uc = c := by simpa using huc
          exact hs c (by simp) (by rw [← huc']; simp)
    rw [if_neg (by rw [hpre, Bool.and_false]; simp)]
    rw [ih (fun e he => hs e (List.mem_cons_of_mem _ he))]

theorem pySplit_pyJoin (u : List Char) (hu : u ≠ []) :
    ∀ segs : List (List Char), segs ≠ [] →
      (∀ seg ∈ segs, ∀ c ∈ seg, c ∉ u) →
      pySplit u (pyJoin u segs) = segs := by
  intro segs
  induction segs with
  | nil => intro h; exact absurd rfl h
  | cons s ss ih =>
    intro _ hd
    cases ss with
    | nil => exact pySplit_single u hu s (hd s (by simp))
    | cons s2 r =>
      rw [pyJoin_cons_cons, List.append_assoc]
      rw [pySplit_append_disjoint u hu s _ (hd s (by simp))]
      rw [ih (by simp) (fun seg hseg => hd seg (List.mem_cons_of_mem _ hseg))]

theorem pyContains_pyJoin (pat u : List Char) (hpat : pat ≠ []) (hu : u ≠ [])
    (hup : ∀ c ∈ u, c ∉ pat) :
    ∀ segs : List (List Char),
      (∀ seg ∈ segs, pyContains pat seg = false) →
      pyContains pat (pyJoin u segs) = false := by
  intro segs
  induction segs with
  | nil => intro _; exact pyContains_nonempty_false pat hpat
  | cons s ss ih =>
    intro hsegs
    cases ss with
    | nil => exact hsegs s (by simp)
    | cons s2 r =>
      rw [pyJoin_cons_cons, List.append_assoc]
      rw [pyContains_append_of_head pat s _ (hsegs s (by simp)) ?hr]
      case hr =>
        intro e he
        cases u with
        | nil => exact absurd rfl hu
        | cons uc us =>
          have he' : uc = e := by
            simpa using he
          rw [← he']
          exact hup uc (by simp)
      rw [pyContains_append_disjoint pat hpat u _ hup]
      exact ih (fun seg hseg => hsegs seg (List.mem_cons_of_mem _ hseg))

theorem pyReplaceF_fuel (pat rep : List Char) :
    ∀ n f s, s.length ≤ n → s.length ≤ f →
      pyReplaceF pat rep f s = pyReplaceF pat rep s.length s := by
  intro n
  induction n with
  | zero =>
    intro f s hn _
    have hs : s = [] := List.eq_nil_of_length_eq_zero (Nat.le_zero.mp hn)
    subst hs
    cases f <;> rfl
  | succ n ih =>
    intro f s hn hf
    cases s with
    | nil => cases f <;> rfl
    | cons c rest =>
      cases f with
      | zero => simp at hf
      | succ f' =>
        have hrest_n : rest.length ≤ n := by simpa using hn
        have hrest_f : rest.length ≤ f' := by simpa using hf
        show pyReplaceF pat rep (f' + 1) (c :: rest)
          = pyReplaceF pat rep (rest.length + 1) (c :: rest)
        simp only [pyReplaceF]
        by_cases hcond : (!pat.isEmpty && pat.isPrefixOf (c :: rest)) = true
        · rw [if_pos hcond, if_pos hcond]
          have hplen : 1 ≤ pat.length := by
            cases pat with
            | nil => simp at hcond
            | cons p ps => simp
          have hdlen : (List.drop pat.length (c :: rest)).length ≤ rest.length := by
            simp only [List.length_drop, List.length_cons]
            omega
          rw [ih f' _ (Nat.le_trans hdlen hrest_n) (Nat.le_trans hdlen hrest_f),
              ih rest.length _ (Nat.le_trans hdlen hrest_n) hdlen]
        · rw [if_neg hcond, if_neg hcond]
          rw [ih f' rest hrest_n hrest_f]

theorem pyReplace_cons (pat rep : List Char) (c : Char) (rest : List Char) :
    pyReplace pat rep (c :: rest) =
      if !pat.isEmpty && pat.isPrefixOf (c :: rest) then
        rep ++ pyReplace pat rep (List.drop pat.length (c :: rest))
      else
        c :: pyReplace pat rep rest := by
  show pyReplaceF pat rep ((c :: rest).length) (c :: rest) = _
  simp only [List.length_cons, pyReplaceF]
  by_cases hcond : (!pat.isEmpty && pat.isPrefixOf (c :: rest)) = true
  · rw [if_pos hcond, if_pos hcond]
    have hplen : 1 ≤ pat.length := by
      cases pat with
      | nil => simp at hcond
      | cons p ps => simp
    have hdlen : (List.drop pat.length (c :: rest)).length ≤ rest.length := by
      simp only [List.length_drop, List.length_cons]
      omega
    rw [pyReplaceF_fuel pat rep rest.length rest.length _ hdlen hdlen]
    rfl
  · rw [if_neg hcond, if_neg hcond]
    rfl

theorem pyReplace_eq_pyJoin (pat rep : List Char) :
    ∀ n s, s.length ≤ n → pyReplace pat rep s = pyJoin rep (pySplit pat s) := by
  intro n
  induction n with
  | zero =>
    intro s hn
    have hs : s = [] := List.eq_nil_of_length_eq_zero (Nat.le_zero.mp hn)
    subst hs
    rfl
  | succ n ih =>
    intro s hn
    cases s with
    | nil => rfl
    | cons c rest =>
      have hrest : rest.length ≤ n := by simpa using hn
      rw [pyReplace_cons, pySplit_cons]
      by_cases hcond : (!pat.isEmpty && pat.isPrefixOf (c :: rest)) = true
      · rw [if_pos hcond, if_pos hcond]
        have hplen : 1 ≤ pat.length := by
          cases pat with
          | nil => simp at hcond
          | cons p ps => simp
        have hdlen : (List.drop pat.length (c :: rest)).length ≤ rest.length := by
          simp only [List.length_drop, List.length_cons]
          omega
        rw [ih _ (Nat.le_trans hdlen hrest)]
        obtain ⟨seg, segs, hsegs⟩ :=
          List.exists_cons_of_ne_nil (pySplit_ne_nil pat (List.drop pat.length (c :: rest)))
        rw [hsegs, pyJoin_cons_cons]
        simp
      · rw [if_neg hcond, if_neg hcond]
        rw [ih rest hrest]
        obtain ⟨seg, segs, hsegs⟩ :=
          List.exists_cons_of_ne_nil (pySplit_ne_nil pat rest)
        rw [hsegs]
        show c :: pyJoin rep (seg :: segs) = pyJoin rep ((c :: seg) :: segs)
        rw [pyJoin_cons_head]

theorem mem_of_pySplit (pat s seg : List Char) (c : Char)
    (hseg : seg ∈ pySplit pat s) (hc : c ∈ seg) : c ∈ s := by
  have hid := pyJoin_pySplit pat s.length s le_rfl
  rw [← hid]
  exact mem_pyJoin pat (pySplit pat s) seg hseg c hc

theorem pyCount_pos_decomp (pat s : List Char) (h : 1 ≤ pyCount pat s) :
    ∃ a b, s = a ++ (pat ++ b) := by
  unfold pyCount at h
  obtain ⟨seg, segs, hsegs⟩ := List.exists_cons_of_ne_nil (pySplit_ne_nil pat s)
  cases segs with
  | nil => rw [hsegs] at h; simp at h
  | cons seg2 r =>
    have hid := pyJoin_pySplit pat s.length s le_rfl
    rw [hsegs, pyJoin_cons_cons] at hid
    obtain ⟨t, ht⟩ := pyJoin_cons_decomp pat seg2 r
    rw [ht] at hid
    exact ⟨seg, seg2 ++ t, by rw [← hid]; simp⟩

theorem pyContains_of_count (pat s : List Char) (h : 1 ≤ pyCount pat s) :
    pyContains pat s = true := by
  obtain ⟨a, b, hab⟩ := pyCount_pos_decomp pat s h
  rw [pyContains_iff]
  exact ⟨a, b, by rw [hab, List.append_assoc]⟩

theorem mem_pat_of_count (pat s : List Char) (c : Char)
    (h : 1 ≤ pyCount pat s) (hc : c ∈ pat) : c ∈ s := by
  obtain ⟨a, b, hab⟩ := pyCount_pos_decomp pat s h
  rw [hab]
  simp [hc]

/-!
## Claim theorems
-/

/-- Claim C7: for every raw record, a free-text description longer than
200 characters is normalised to exactly its first 200 characters followed
by the ellipsis marker `"..."`; a description of length at most 200 passes
through unchanged. -/
theorem c7_description_truncation (i : RawIssue) (d : List Char)
    (hd : i.description = some d) :
    (200 < d.length →
      (extract_issue_details i).description = some (d.take 200 ++ ("...").data))
    ∧ (d.length ≤ 200 → (extract_issue_details i).description = some d) := by
  constructor
  · intro hlen
    have hne : d.isEmpty = false := by
      cases d with
      | nil => simp at hlen
      | cons a as => rfl
    simp [extract_issue_details, normalizeDescription, hd, hne, hlen]
  · intro hlen
    have hnot : ¬(200 < d.length) := by omega
    simp [extract_issue_details, normalizeDescription, hd, hnot]

set_option maxRecDepth 40000 in
/-- Claim C7 witness: a 201-character description is truncated to 200
characters plus the ellipsis; a short one is unchanged. -/
theorem c7_description_truncation_witness :
    (200 < (List.replicate 201 'a').length
      ∧ (extract_issue_details
          { sampleRawIssue with description := some (List.replicate 201 'a') }).description
        = some ((List.replicate 201 'a').take 200 ++ ("...").data))
    ∧ ((("hi").data).length ≤ 200
      ∧ (extract_issue_details
          { sampleRawIssue with description := some (("hi").data) }).description
        = some (("hi").data)) :=
  ⟨⟨by simp,
    (c7_description_truncation _ (List.replicate 201 'a') rfl).1 (by simp)⟩,
   ⟨by simp,
    (c7_description_truncation _ (("hi").data) rfl).2 (by simp)⟩⟩

/-- Claim C9 counterexample: normalisation of a record with absent
optional fields propagates the absence of the due date and of the
resolution as `None` instead of mapping them to one of the claimed
sentinels (the string `"None"`, the string `"Unassigned"`, or an empty
collection). -/
theorem c9_counterexample :
    (extract_issue_details sampleRawIssue).due_date = none
    ∧ (extract_issue_details sampleRawIssue).resolution = none
    ∧ (extract_issue_details sampleRawIssue).resolution_description = none := by
  refine ⟨rfl, rfl, rfl⟩

/-- Claim C9 (amended): absent priority, reporter and assignee map to the
string sentinels `"None"` / `"None"` / `"Unassigned"`; absent labels,
components and custom fields map to empty collections; but an absent due
date and an absent resolution are propagated as `None`. -/
theorem c9_amended_sentinels (i : RawIssue) :
    (i.priority_name = none → (extract_issue_details i).priority = ("None").data)
    ∧ (i.reporter_displayName = none →
        (extract_issue_details i).reporter = ("None").data)
    ∧ (i.assignee_displayName = none →
        (extract_issue_details i).assignee = ("Unassigned").data)
    ∧ (i.labels = none → (extract_issue_details i).labels = [])
    ∧ (i.components = none → (extract_issue_details i).components = [])
    ∧ ((∀ p ∈ i.dynamicFields,
          (("customfield_").data).isPrefixOf p.1 = false ∨ p.2 = []) →
        (extract_issue_details i).custom_fields = [])
    ∧ (i.duedate = none → (extract_issue_details i).due_date = none)
    ∧ (i.resolution = none →
        (extract_issue_details i).resolution = none
        ∧ (extract_issue_details i).resolution_description = none) := by
  refine ⟨?_, ?_, ?_, ?_, ?_, ?_, ?_, ?_⟩
  · intro h; simp [extract_issue_details, h]
  · intro h; simp [extract_issue_details, h]
  · intro h; simp [extract_issue_details, h]
  · intro h; simp [extract_issue_details, h]
  · intro h; simp [extract_issue_details, h]
  · intro h
    simp only [extract_issue_details]
    rw [List.filter_eq_nil_iff]
    intro p hp
    rcases h p hp with hfalse | hempty
    · simp [hfalse]
    · simp [hempty]
  · intro h; simp [extract_issue_details, noneIfFalsy, h]
  · intro h; simp [extract_issue_details, h]

/-- Claim C9 witness: the amended sentinel mapping evaluated on a record
with every optional field absent. -/
theorem c9_amended_sentinels_witness :
    (extract_issue_details sampleRawIssue).priority = ("None").data
    ∧ (extract_issue_details sampleRawIssue).reporter = ("None").data
    ∧ (extract_issue_details sampleRawIssue).assignee = ("Unassigned").data
    ∧ (extract_issue_details sampleRawIssue).labels = []
    ∧ (extract_issue_details sampleRawIssue).components = []
    ∧ (extract_issue_details sampleRawIssue).custom_fields = [] :=
  ⟨(c9_amended_sentinels sampleRawIssue).1 rfl,
   (c9_amended_sentinels sampleRawIssue).2.1 rfl,
   (c9_amended_sentinels sampleRawIssue).2.2.1 rfl,
   (c9_amended_sentinels sampleRawIssue).2.2.2.1 rfl,
   (c9_amended_sentinels sampleRawIssue).2.2.2.2.1 rfl,
   (c9_amended_sentinels sampleRawIssue).2.2.2.2.2.1 (by simp [sampleRawIssue])⟩

/-- Claim C4: the pipeline's call to `create_linkly_oneshot_link` passes
only four of the six required parameters (it omits `name` and
`utm_source`), so the call raises before any request and the surrounding
handler returns the input text unchanged — for every input, credentials
included. -/
theorem c4_call_arity_unchanged :
    (¬ ∀ p ∈ linklyRequiredParams, p ∈ linklyCallSiteArgs)
    ∧ ∀ (creds : LinklyCreds) (text : List Char),
        replace_links_with_linkly creds text = text := by
  constructor
  · decide
  · intro creds text
    show (replace_links_core creds MintOutcome.raised text).1 = text
    unfold replace_links_core
    repeat' split
    all_goals try rfl
    all_goals simp_all

/-- Claim C3: the substitutor returns its input unchanged whenever the
marker is absent, the credentials are incomplete, the workspace
identifier does not parse as an integer, or the mint call fails or yields
no usable URL. -/
theorem c3_skip_returns_input (creds : LinklyCreds) (outcome : MintOutcome)
    (text : List Char)
    (h : pyContains linkMarker text = false
       ∨ credsTruthy creds = false
       ∨ (∃ wid, creds.linkly_workspace_id = some wid ∧ pyInt wid = none)
       ∨ outcome = MintOutcome.raised
       ∨ outcome = MintOutcome.noResponse
       ∨ outcome = MintOutcome.response none
       ∨ outcome = MintOutcome.response (some [])) :
    (replace_links_core creds outcome text).1 = text := by
  unfold replace_links_core
  repeat' split
  all_goals try rfl
  all_goals simp_all

/-- Claim C3 witness: each of the four skip conditions evaluated at a
concrete input. -/
theorem c3_skip_returns_input_witness :
    (pyContains linkMarker (("no marker here").data) = false
      ∧ (replace_links_core sampleCreds (MintOutcome.response (some (("u").data)))
          (("no marker here").data)).1 = ("no marker here").data)
    ∧ (credsTruthy ⟨none, some (("k").data), some (("7").data)⟩ = false
      ∧ (replace_links_core ⟨none, some (("k").data), some (("7").data)⟩
          (MintOutcome.response (some (("u").data)))
          (("x LINK_HERE").data)).1 = ("x LINK_HERE").data)
    ∧ (pyInt (("abc").data) = none
      ∧ (replace_links_core
          ⟨some (("e").data), some (("k").data), some (("abc").data)⟩
          (MintOutcome.response (some (("u").data)))
          (("x LINK_HERE").data)).1 = ("x LINK_HERE").data)
    ∧ (replace_links_core sampleCreds MintOutcome.noResponse
          (("x LINK_HERE").data)).1 = ("x LINK_HERE").data :=
  ⟨⟨by decide,
    c3_skip_returns_input sampleCreds _ _ (Or.inl (by decide))⟩,
   ⟨by decide,
    c3_skip_returns_input _ _ _ (Or.inr (Or.inl (by decide)))⟩,
   ⟨by decide,
    c3_skip_returns_input _ _ _
      (Or.inr (Or.inr (Or.inl ⟨("abc").data, rfl, by decide⟩)))⟩,
   c3_skip_returns_input sampleCreds _ _
     (Or.inr (Or.inr (Or.inr (Or.inr (Or.inl rfl)))))⟩

/-- Claim C10: the assembled prompt is always documents block, then
ticket block, then instruction sentence, in that order; the ticket block
is rebuilt from the current tickets on every request, whether the
documents block is reused from the cache (non-empty `self.context`) or
reloaded. -/
theorem c10_prompt_order (st : GenState) (target_email impersonate : List Char) :
    (∃ docs, generate_full_prompt st target_email impersonate
        = docs ++ nlChars ++ create_jira_tickets_context st.jira_tickets
          ++ nlChars ++ nlChars ++ instrLead
          ++ buildBasePrompt target_email impersonate)
    ∧ (st.context ≠ [] → generate_full_prompt st target_email impersonate
        = st.context ++ nlChars ++ create_jira_tickets_context st.jira_tickets
          ++ nlChars ++ nlChars ++ instrLead
          ++ buildBasePrompt target_email impersonate)
    ∧ (st.context = [] → generate_full_prompt st target_email impersonate
        = load_prompts_context max_context_chars st.prompt_files
          ++ nlChars ++ create_jira_tickets_context st.jira_tickets
          ++ nlChars ++ nlChars ++ instrLead
          ++ buildBasePrompt target_email impersonate) := by
  refine ⟨?_, ?_, ?_⟩
  · exact ⟨if !st.context.isEmpty then st.context
           else load_prompts_context max_context_chars st.prompt_files, rfl⟩
  · intro h
    have hne : st.context.isEmpty = false := by
      cases hcx : st.context with
      | nil => exact absurd hcx h
      | cons a as => rfl
    simp [generate_full_prompt, hne]
  · intro h
    simp [generate_full_prompt, h]

/-- Claim C10 witness: with a cached documents block `"C"` the prompt is
the cache, then the (freshly rebuilt, here empty-ticket) ticket block,
then the instruction sentence. -/
theorem c10_prompt_order_witness :
    ((("C").data : List Char) ≠ []
      ∧ generate_full_prompt ⟨("C").data, [], []⟩ (("t@x").data) []
        = ("C").data ++ nlChars ++ create_jira_tickets_context []
          ++ nlChars ++ nlChars ++ instrLead
          ++ buildBasePrompt (("t@x").data) []) :=
  ⟨by decide,
   (c10_prompt_order ⟨("C").data, [], []⟩ (("t@x").data) []).2.1 (by decide)⟩

theorem countTicket_entry (i : Nat) (t : IssueData) :
    List.countP (fun part => (("TICKET #").data).isPrefixOf part)
      (ticketEntry i t) = 1 := by
  have hT : ∀ x : List Char,
      (("TICKET #").data).isPrefixOf (("TICKET #").data ++ x) = true :=
    fun x => ipo_append _ x
  have e1 : ∀ x : List Char,
      (("TICKET #").data).isPrefixOf (("Summary: ").data ++ x) = false :=
    fun x => ipo_append_false _ _ x (by decide) (by decide)
  have e2 : ∀ x : List Char,
      (("TICKET #").data).isPrefixOf (("Status: ").data ++ x) = false :=
    fun x => ipo_append_false _ _ x (by decide) (by decide)
  have e3 : ∀ x : List Char,
      (("TICKET #").data).isPrefixOf (("Priority: ").data ++ x) = false :=
    fun x => ipo_append_false _ _ x (by decide) (by decide)
  have e4 : ∀ x : List Char,
      (("TICKET #").data).isPrefixOf (("Issue Type: ").data ++ x) = false :=
    fun x => ipo_append_false _ _ x (by decide) (by decide)
  have e5 : ∀ x : List Char,
      (("TICKET #").data).isPrefixOf (("Assignee: ").data ++ x) = false :=
    fun x => ipo_append_false _ _ x (by decide) (by decide)
  have e6 : ∀ x : List Char,
      (("TICKET #").data).isPrefixOf (("Reporter: ").data ++ x) = false :=
    fun x => ipo_append_false _ _ x (by decide) (by decide)
  have e7 : ∀ x : List Char,
      (("TICKET #").data).isPrefixOf (("Project: ").data ++ x) = false :=
    fun x => ipo_append_false _ _ x (by decide) (by decide)
  have e8 : ∀ x : List Char,
      (("TICKET #").data).isPrefixOf (("Created: ").data ++ x) = false :=
    fun x => ipo_append_false _ _ x (by decide) (by decide)
  have e9 : ∀ x : List Char,
      (("TICKET #").data).isPrefixOf (("Updated: ").data ++ x) = false :=
    fun x => ipo_append_false _ _ x (by decide) (by decide)
  have e10 : ∀ x : List Char,
      (("TICKET #").data).isPrefixOf (("Description: ").data ++ x) = false :=
    fun x => ipo_append_false _ _ x (by decide) (by decide)
  have e11 : ∀ x : List Char,
      (("TICKET #").data).isPrefixOf (("Labels: ").data ++ x) = false :=
    fun x => ipo_append_false _ _ x (by decide) (by decide)
  have e12 : ∀ x : List Char,
      (("TICKET #").data).isPrefixOf (("Components: ").data ++ x) = false :=
    fun x => ipo_append_false _ _ x (by decide) (by decide)
  have e13 : (("TICKET #").data).isPrefixOf (("---").data) = false := by decide
  unfold ticketEntry
  repeat' split
  all_goals
    simp [List.countP_append, List.countP_cons, List.append_assoc,
      hT, e1, e2, e3, e4, e5, e6, e7, e8, e9, e10, e11, e12, e13]

theorem countNote_entry (i : Nat) (t : IssueData) :
    List.countP (fun part => (("[Additional ").data).isPrefixOf part)
      (ticketEntry i t) = 0 := by
  have e0 : ∀ x : List Char,
      (("[Additional ").data).isPrefixOf (("TICKET #").data ++ x) = false :=
    fun x => ipo_append_false _ _ x (by decide) (by decide)
  have e1 : ∀ x : List Char,
      (("[Additional ").data).isPrefixOf (("Summary: ").data ++ x) = false :=
    fun x => ipo_append_false _ _ x (by decide) (by decide)
  have e2 : ∀ x : List Char,
      (("[Additional ").data).isPrefixOf (("Status: ").data ++ x) = false :=
    fun x => ipo_append_false _ _ x (by decide) (by decide)
  have e3 : ∀ x : List Char,
      (("[Additional ").data).isPrefixOf (("Priority: ").data ++ x) = false :=
    fun x => ipo_append_false _ _ x (by decide) (by decide)
  have e4 : ∀ x : List Char,
      (("[Additional ").data).isPrefixOf (("Issue Type: ").data ++ x) = false :=
    fun x => ipo_append_false _ _ x (by decide) (by decide)
  have e5 : ∀ x : List Char,
      (("[Additional ").data).isPrefixOf (("Assignee: ").data ++ x) = false :=
    fun x => ipo_append_false _ _ x (by decide) (by decide)
  have e6 : ∀ x : List Char,
      (("[Additional ").data).isPrefixOf (("Reporter: ").data ++ x) = false :=
    fun x => ipo_append_false _ _ x (by decide) (by decide)
  have e7 : ∀ x : List Char,
      (("[Additional ").data).isPrefixOf (("Project: ").data ++ x) = false :=
    fun x => ipo_append_false _ _ x (by decide) (by decide)
  have e8 : ∀ x : List Char,
      (("[Additional ").data).isPrefixOf (("Created: ").data ++ x) = false :=
    fun x => ipo_append_false _ _ x (by decide) (by decide)
  have e9 : ∀ x : List Char,
      (("[Additional ").data).isPrefixOf (("Updated: ").data ++ x) = false :=
    fun x => ipo_append_false _ _ x (by decide) (by decide)
  have e10 : ∀ x : List Char,
      (("[Additional ").data).isPrefixOf (("Description: ").data ++ x) = false :=
    fun x => ipo_append_false _ _ x (by decide) (by decide)
  have e11 : ∀ x : List Char,
      (("[Additional ").data).isPrefixOf (("Labels: ").data ++ x) = false :=
    fun x => ipo_append_false _ _ x (by decide) (by decide)
  have e12 : ∀ x : List Char,
      (("[Additional ").data).isPrefixOf (("Components: ").data ++ x) = false :=
    fun x => ipo_append_false _ _ x (by decide) (by decide)
  have e13 : (("[Additional ").data).isPrefixOf (("---").data) = false := by decide
  unfold ticketEntry
  repeat' split
  all_goals
    simp [List.countP_append, List.countP_cons, List.append_assoc,
      e0, e1, e2, e3, e4, e5, e6, e7, e8, e9, e10, e11, e12, e13]

theorem countTicket_entries (ts : List IssueData) :
    ∀ i, List.countP (fun part => (("TICKET #").data).isPrefixOf part)
      (ticketEntries i ts) = ts.length := by
  induction ts with
  | nil => intro i; rfl
  | cons t rest ih =>
    intro i
    show List.countP _ (ticketEntry i t ++ ticketEntries (i + 1) rest) = _
    rw [List.countP_append, countTicket_entry, ih (i + 1)]
    simp [Nat.add_comm]

theorem countNote_entries (ts : List IssueData) :
    ∀ i, List.countP (fun part => (("[Additional ").data).isPrefixOf part)
      (ticketEntries i ts) = 0 := by
  induction ts with
  | nil => intro i; rfl
  | cons t rest ih =>
    intro i
    show List.countP _ (ticketEntry i t ++ ticketEntries (i + 1) rest) = _
    rw [List.countP_append, countNote_entry, ih (i + 1)]

/-- Claim C6: the rendered ticket block has exactly `min N 5` detailed
per-ticket sections (identified by their `"TICKET #"` header line), plus
exactly one additional-tickets note when `N > 5`, naming `N - 5`; an
empty ticket list renders the empty string. -/
theorem c6_ticket_block (ts : List IssueData) :
    List.countP (fun part => (("TICKET #").data).isPrefixOf part)
      (ticketContextParts ts) = min ts.length 5
    ∧ List.countP (fun part => (("[Additional ").data).isPrefixOf part)
        (ticketContextParts ts) = (if 5 < ts.length then 1 else 0)
    ∧ (5 < ts.length → additionalNote (ts.length - 5) ∈ ticketContextParts ts)
    ∧ create_jira_tickets_context [] = [] := by
  have eTot : ∀ x : List Char,
      (("TICKET #").data).isPrefixOf (("Total Active Tickets: ").data ++ x) = false :=
    fun x => ipo_append_false _ _ x (by decide) (by decide)
  have eTotN : ∀ x : List Char,
      (("[Additional ").data).isPrefixOf (("Total Active Tickets: ").data ++ x) = false :=
    fun x => ipo_append_false _ _ x (by decide) (by decide)
  have eNoteT : ∀ x : List Char,
      (("TICKET #").data).isPrefixOf (("[Additional ").data ++ x) = false :=
    fun x => ipo_append_false _ _ x (by decide) (by decide)
  have hNote : ∀ x : List Char,
      (("[Additional ").data).isPrefixOf (("[Additional ").data ++ x) = true :=
    fun x => ipo_append _ x
  refine ⟨?_, ?_, ?_, rfl⟩
  · unfold ticketContextParts additionalNote
    rw [List.countP_append, List.countP_append, List.countP_append]
    rw [countTicket_entries (ts.take 5) 1]
    have hfixed : List.countP (fun part => (("TICKET #").data).isPrefixOf part)
        [("=== RECENT JIRA TICKETS FOR TARGET USER ===").data,
         ("Total Active Tickets: ").data ++ natToChars ts.length, []] = 0 := by
      simp [List.countP_cons, eTot]
    rw [hfixed]
    have hnoteseg : List.countP (fun part => (("TICKET #").data).isPrefixOf part)
        (if 5 < ts.length
         then [("[Additional ").data ++ natToChars (ts.length - 5)
                ++ (" tickets not shown for brevity]").data]
         else []) = 0 := by
      split
      · simp [List.countP_cons, List.append_assoc, eNoteT]
      · rfl
    rw [hnoteseg]
    have hend : List.countP (fun part => (("TICKET #").data).isPrefixOf part)
        [("=== END OF JIRA TICKETS ===\n").data] = 0 := by decide
    rw [hend]
    simp [List.length_take, Nat.min_comm]
  · unfold ticketContextParts additionalNote
    rw [List.countP_append, List.countP_append, List.countP_append]
    rw [countNote_entries (ts.take 5) 1]
    have hfixed : List.countP (fun part => (("[Additional ").data).isPrefixOf part)
        [("=== RECENT JIRA TICKETS FOR TARGET USER ===").data,
         ("Total Active Tickets: ").data ++ natToChars ts.length, []] = 0 := by
      simp [List.countP_cons, eTotN]
    rw [hfixed]
    have hnoteseg : List.countP (fun part => (("[Additional ").data).isPrefixOf part)
        (if 5 < ts.length
         then [("[Additional ").data ++ natToChars (ts.length - 5)
                ++ (" tickets not shown for brevity]").data]
         else []) = (if 5 < ts.length then 1 else 0) := by
      split
      · simp [List.countP_cons, List.append_assoc, hNote]
      · rfl
    rw [hnoteseg]
    have hend : List.countP (fun part => (("[Additional ").data).isPrefixOf part)
        [("=== END OF JIRA TICKETS ===\n").data] = 0 := by decide
    rw [hend]
    split <;> simp
  · intro h
    unfold ticketContextParts
    simp [List.mem_append, h]

/-- Claim C6 witness: seven tickets render five detailed sections plus a
note naming the two not shown. -/
theorem c6_ticket_block_witness :
    5 < sampleTickets7.length
    ∧ additionalNote (sampleTickets7.length - 5) ∈ ticketContextParts sampleTickets7 :=
  ⟨by decide, (c6_ticket_block sampleTickets7).2.2.1 (by decide)⟩

theorem loadStep_emitted_cases (limit : Nat) (st : LoadState) (f : PromptFile) :
    (loadStep limit st f).emitted = st.emitted
    ∨ ∃ c, (loadStep limit st f).emitted = st.emitted ++ [(f, c)] := by
  dsimp only [loadStep]
  repeat' split
  all_goals first
    | exact Or.inl rfl
    | exact Or.inr ⟨_, rfl⟩

theorem loadFold_emitted (limit : Nat) :
    ∀ (l : List PromptFile) (st : LoadState),
      ∃ S, ((List.foldl (loadStep limit) st l).emitted).map Prod.fst
        = st.emitted.map Prod.fst ++ S ∧ List.Sublist S l := by
  intro l
  induction l with
  | nil => intro st; exact ⟨[], by simp, List.nil_sublist _⟩
  | cons f fs ih =>
    intro st
    obtain ⟨S, hS, hsub⟩ := ih (loadStep limit st f)
    rcases loadStep_emitted_cases limit st f with h | ⟨c, h⟩
    · refine ⟨S, ?_, hsub.cons f⟩
      rw [List.foldl_cons, hS, h]
    · refine ⟨f :: S, ?_, hsub.cons₂ f⟩
      rw [List.foldl_cons, hS, h]
      simp

theorem loadStep_parts_inv (limit : Nat) (st : LoadState) (f : PromptFile)
    (h : st.parts
      = contextBanner :: (st.emitted.map (fun p => [headerOf p.1, p.2])).flatten) :
    (loadStep limit st f).parts
      = contextBanner ::
        (((loadStep limit st f).emitted).map (fun p => [headerOf p.1, p.2])).flatten := by
  dsimp only [loadStep]
  repeat' split
  all_goals simp [h, List.map_append, List.flatten_append]

theorem loadFold_parts (limit : Nat) :
    ∀ (l : List PromptFile) (st : LoadState),
      st.parts = contextBanner :: (st.emitted.map (fun p => [headerOf p.1, p.2])).flatten →
      (List.foldl (loadStep limit) st l).parts
        = contextBanner ::
          (((List.foldl (loadStep limit) st l).emitted).map
            (fun p => [headerOf p.1, p.2])).flatten := by
  intro l
  induction l with
  | nil => intro st h; exact h
  | cons f fs ih =>
    intro st h
    rw [List.foldl_cons]
    exact ih (loadStep limit st f) (loadStep_parts_inv limit st f h)

theorem loadPromptsState_parts (limit : Nat) (files : List PromptFile) :
    (loadPromptsState limit files).parts
      = contextBanner ::
        ((loadPromptsState limit files).emitted.map (fun p => [headerOf p.1, p.2])).flatten :=
  loadFold_parts limit (sortedFiles files) loadInit rfl

theorem sublist_append_split {α : Type} :
    ∀ (a b l : List α), List.Sublist l (a ++ b) →
      ∃ l1 l2, l = l1 ++ l2 ∧ List.Sublist l1 a ∧ List.Sublist l2 b := by
  intro a
  induction a with
  | nil =>
    intro b l h
    exact ⟨[], l, rfl, List.nil_sublist _, by simpa using h⟩
  | cons x a' ih =>
    intro b l h
    cases h with
    | cons _ h' =>
      obtain ⟨l1, l2, rfl, h1, h2⟩ := ih b l h'
      exact ⟨l1, l2, rfl, h1.cons x, h2⟩
    | cons₂ _ h' =>
      obtain ⟨l1, l2, hl, h1, h2⟩ := ih b _ h'
      exact ⟨x :: l1, l2, by rw [hl, List.cons_append], h1.cons₂ x, h2⟩

theorem filter_split_of_sublist {α : Type} (P : α → Bool) (E A B : List α)
    (h : List.Sublist E (A ++ B))
    (hA : ∀ f ∈ A, P f = true) (hB : ∀ f ∈ B, P f = false) :
    E = E.filter P ++ E.filter (fun f => !P f)
    ∧ List.Sublist (E.filter P) A
    ∧ List.Sublist (E.filter (fun f => !P f)) B := by
  obtain ⟨E1, E2, rfl, h1, h2⟩ := sublist_append_split A B E h
  have hE1 : ∀ f ∈ E1, P f = true := fun f hf => hA f (h1.subset hf)
  have hE2 : ∀ f ∈ E2, P f = false := fun f hf => hB f (h2.subset hf)
  have hf1 : E1.filter P = E1 := List.filter_eq_self.mpr (by simpa using hE1)
  have hf2 : E2.filter P = [] :=
    List.filter_eq_nil_iff.mpr (by intro a ha; simp [hE2 a ha])
  have hg1 : E1.filter (fun f => !P f) = [] :=
    List.filter_eq_nil_iff.mpr (by intro a ha; simp [hE1 a ha])
  have hg2 : E2.filter (fun f => !P f) = E2 :=
    List.filter_eq_self.mpr (by intro a ha; simp [hE2 a ha])
  refine ⟨?_, ?_, ?_⟩
  · rw [List.filter_append, List.filter_append, hf1, hf2, hg1, hg2,
      List.append_nil, List.nil_append]
  · rw [List.filter_append, hf1, hf2, List.append_nil]
    exact h1
  · rw [List.filter_append, hg1, hg2, List.nil_append]
    exact h2

/-- Claim C8: the rendered block consists of the banner followed by one
header-plus-content section per emitted fragment, in emission order; the
emitted fragments list every priority-named (`"context"`) fragment before
every other fragment, and inside each class the filesystem discovery
order is preserved (each class is a sublist of the corresponding filter
of the discovery-ordered input). -/
theorem c8_priority_order (limit : Nat) (files : List PromptFile) :
    (loadPromptsState limit files).parts
      = contextBanner ::
        ((loadPromptsState limit files).emitted.map (fun p => [headerOf p.1, p.2])).flatten
    ∧ ((loadPromptsState limit files).emitted.map Prod.fst)
        = ((loadPromptsState limit files).emitted.map Prod.fst).filter isContextFile
          ++ ((loadPromptsState limit files).emitted.map Prod.fst).filter
              (fun f => !isContextFile f)
    ∧ List.Sublist
        (((loadPromptsState limit files).emitted.map Prod.fst).filter isContextFile)
        (files.filter isContextFile)
    ∧ List.Sublist
        (((loadPromptsState limit files).emitted.map Prod.fst).filter
          (fun f => !isContextFile f))
        (files.filter (fun f => !isContextFile f)) := by
  obtain ⟨S, hS, hsub⟩ := loadFold_emitted limit (sortedFiles files) loadInit
  have hE : ((loadPromptsState limit files).emitted.map Prod.fst) = S := by
    simpa [loadPromptsState, loadInit] using hS
  have hsubE : List.Sublist ((loadPromptsState limit files).emitted.map Prod.fst)
      (files.filter isContextFile ++ files.filter (fun f => !isContextFile f)) := by
    rw [hE]
    exact hsub
  have hsplit := filter_split_of_sublist isContextFile _
      (files.filter isContextFile) (files.filter (fun f => !isContextFile f))
      hsubE
      (fun f hf => (List.mem_filter.mp hf).2)
      (fun f hf => by
        have := (List.mem_filter.mp hf).2
        simpa using this)
  exact ⟨loadPromptsState_parts limit files, hsplit.1, hsplit.2.1, hsplit.2.2⟩

theorem loadStep_budget (limit : Nat) (st : LoadState) (f : PromptFile)
    (h : st.total ≤ limit ∨ st.total = limit + truncMarker.length) :
    (loadStep limit st f).total ≤ limit
    ∨ (loadStep limit st f).total = limit + truncMarker.length := by
  dsimp only [loadStep]
  split
  · exact h
  · split
    · split
      · right
        rename_i hne hover hrem
        have hle : limit - st.total ≤ (pyStrip f.content).length := by omega
        have hlt : st.total ≤ limit := by
          rcases h with h' | h'
          · exact h'
          · omega
        dsimp only
        simp only [List.length_append, List.length_take]
        rw [Nat.min_eq_left hle]
        omega
      · exact h
    · rename_i hne hover
      left
      dsimp only
      omega

theorem loadFold_budget (limit : Nat) :
    ∀ (l : List PromptFile) (st : LoadState),
      (st.total ≤ limit ∨ st.total = limit + truncMarker.length) →
      ((List.foldl (loadStep limit) st l).total ≤ limit
        ∨ (List.foldl (loadStep limit) st l).total = limit + truncMarker.length) := by
  intro l
  induction l with
  | nil => intro st h; exact h
  | cons f fs ih =>
    intro st h
    rw [List.foldl_cons]
    exact ih _ (loadStep_budget limit st f h)

theorem loadStep_total_emitted (limit : Nat) (st : LoadState) (f : PromptFile)
    (h : st.total = (st.emitted.map (fun p => p.2.length)).sum) :
    (loadStep limit st f).total
      = (((loadStep limit st f).emitted).map (fun p => p.2.length)).sum := by
  dsimp only [loadStep]
  repeat' split
  all_goals simp [h, List.map_append, List.sum_append]

theorem loadFold_total_emitted (limit : Nat) :
    ∀ (l : List PromptFile) (st : LoadState),
      st.total = (st.emitted.map (fun p => p.2.length)).sum →
      (List.foldl (loadStep limit) st l).total
        = (((List.foldl (loadStep limit) st l).emitted).map (fun p => p.2.length)).sum := by
  intro l
  induction l with
  | nil => intro st h; exact h
  | cons f fs ih =>
    intro st h
    rw [List.foldl_cons]
    exact ih _ (loadStep_total_emitted limit st f h)

theorem loadPromptsState_total (limit : Nat) (files : List PromptFile) :
    (loadPromptsState limit files).total
      = ((loadPromptsState limit files).emitted.map (fun p => p.2.length)).sum :=
  loadFold_total_emitted limit (sortedFiles files) loadInit rfl

theorem pyJoin_length_le (sep : List Char) :
    ∀ parts : List (List Char),
      (pyJoin sep parts).length
        ≤ (parts.map (fun part => part.length + sep.length)).sum := by
  intro parts
  induction parts with
  | nil => simp [pyJoin]
  | cons x xs ih =>
    cases xs with
    | nil => simp [pyJoin]
    | cons y rest =>
      rw [pyJoin_cons_cons]
      simp only [List.map_cons, List.sum_cons] at ih ⊢
      simp only [List.length_append]
      omega

theorem sublist_sum_le : ∀ {l₁ l₂ : List Nat}, List.Sublist l₁ l₂ → l₁.sum ≤ l₂.sum := by
  intro l₁ l₂ h
  induction h with
  | slnil => exact le_rfl
  | cons a h ih => simp only [List.sum_cons]; omega
  | cons₂ a h ih => simp only [List.sum_cons]; omega

theorem emitted_parts_sum (emitted : List (PromptFile × List Char)) :
    (((emitted.map (fun p => [headerOf p.1, p.2])).flatten).map
        (fun part => part.length + nlChars.length)).sum
      = ((emitted.map Prod.fst).map (fun f => (headerOf f).length + 2)).sum
        + (emitted.map (fun p => p.2.length)).sum := by
  induction emitted with
  | nil => rfl
  | cons e es ih =>
    simp only [List.map_cons, List.flatten_cons, List.map_append, List.sum_append,
      List.sum_cons, List.map_nil, List.sum_nil, ih]
    have hnl : nlChars.length = 1 := rfl
    rw [hnl]
    omega

/-- Claim C1 (amended): the consumed character count can exceed the limit
by exactly the length of the truncation marker (15 characters), and by no
more: after every prefix of the loop it is at most
`limit + truncMarker.length`; consequently the rendered block's length is
bounded by the limit plus the marker length plus the banner overhead plus
the per-fragment header overhead (headers and banners are not charged to
the budget). -/
theorem c1_amended_budget (limit : Nat) (files : List PromptFile)
    (p q : List PromptFile) (_hpq : sortedFiles files = p ++ q) :
    (List.foldl (loadStep limit) loadInit p).total ≤ limit + truncMarker.length
    ∧ (loadPromptsState limit files).total ≤ limit + truncMarker.length
    ∧ (load_prompts_context limit files).length
        ≤ limit + truncMarker.length + bannerOverhead + headerOverhead files := by
  have hinv0 : loadInit.total ≤ limit ∨ loadInit.total = limit + truncMarker.length :=
    Or.inl (by simp [loadInit])
  have hbud : (loadPromptsState limit files).total ≤ limit + truncMarker.length := by
    unfold loadPromptsState
    rcases loadFold_budget limit (sortedFiles files) loadInit hinv0 with h | h <;> omega
  refine ⟨?_, hbud, ?_⟩
  · rcases loadFold_budget limit p loadInit hinv0 with h | h <;> omega
  · unfold load_prompts_context
    split
    · simp
    · have hparts := loadPromptsState_parts limit files
      have htotal := loadPromptsState_total limit files
      obtain ⟨S, hS, hsub⟩ := loadFold_emitted limit (sortedFiles files) loadInit
      have hE : ((loadPromptsState limit files).emitted.map Prod.fst) = S := by
        simpa [loadPromptsState, loadInit] using hS
      have hhdr : (((loadPromptsState limit files).emitted.map Prod.fst).map
            (fun f => (headerOf f).length + 2)).sum ≤ headerOverhead files := by
        unfold headerOverhead
        apply sublist_sum_le
        apply List.Sublist.map
        rw [hE]
        exact hsub
      have hflat := emitted_parts_sum ((loadPromptsState limit files).emitted)
      have hjoin := pyJoin_length_le nlChars (loadPromptsParts limit files)
      have hsum : ((loadPromptsParts limit files).map
            (fun part => part.length + nlChars.length)).sum
          = (contextBanner.length + nlChars.length)
            + ((((loadPromptsState limit files).emitted.map
                (fun p => [headerOf p.1, p.2])).flatten).map
                (fun part => part.length + nlChars.length)).sum
            + (endBanner.length + nlChars.length) := by
        unfold loadPromptsParts
        rw [hparts]
        simp only [List.cons_append, List.map_cons, List.map_append, List.sum_cons,
          List.sum_append, List.map_nil, List.sum_nil]
        omega
      have hnl : nlChars.length = 1 := rfl
      have hbo : bannerOverhead = contextBanner.length + endBanner.length + 2 := rfl
      rw [hsum, hflat, hnl] at hjoin
      rw [← htotal] at hjoin
      omega

set_option maxRecDepth 40000 in
/-- Claim C1 counterexample: with limit 200 and a single 301-character
fragment the truncating append leaves a consumed count of 215 > 200 (the
content is cut to the 200 remaining characters and the 15-character
truncation marker is appended on top); the same arithmetic overshoots the
source's default limit 90000 with a 90101-character fragment. -/
theorem c1_counterexample :
    200 < (loadPromptsState 200
      [{ name := ("a.txt").data, content := List.replicate 301 'b' }]).total := by
  decide

set_option maxRecDepth 40000 in
/-- Claim C1 witness: the amended budget bound evaluated on the
counterexample directory. -/
theorem c1_amended_budget_witness :
    (sortedFiles [{ name := ("a.txt").data, content := List.replicate 301 'b' }]
      = sortedFiles [{ name := ("a.txt").data, content := List.replicate 301 'b' }] ++ [])
    ∧ ((List.foldl (loadStep 200) loadInit
          (sortedFiles [{ name := ("a.txt").data, content := List.replicate 301 'b' }])).total
        ≤ 200 + truncMarker.length
      ∧ (loadPromptsState 200
          [{ name := ("a.txt").data, content := List.replicate 301 'b' }]).total
        ≤ 200 + truncMarker.length
      ∧ (load_prompts_context 200
          [{ name := ("a.txt").data, content := List.replicate 301 'b' }]).length
        ≤ 200 + truncMarker.length + bannerOverhead
          + headerOverhead [{ name := ("a.txt").data, content := List.replicate 301 'b' }]) :=
  ⟨by simp,
   c1_amended_budget 200 [{ name := ("a.txt").data, content := List.replicate 301 'b' }]
     (sortedFiles [{ name := ("a.txt").data, content := List.replicate 301 'b' }]) []
     (by simp)⟩

theorem loadFold_stuck (limit : Nat) :
    ∀ (rest : List PromptFile) (st : LoadState), limit < st.total →
      List.foldl (loadStep limit) st rest = st := by
  intro rest
  induction rest with
  | nil => intro st _; rfl
  | cons f fs ih =>
    intro st h
    rw [List.foldl_cons]
    have hstep : loadStep limit st f = st := by
      dsimp only [loadStep]
      split
      · rfl
      · rename_i hne
        rw [if_pos (by omega)]
        rw [if_neg (by omega)]
    rw [hstep]
    exact ih st h

set_option maxRecDepth 40000 in
/-- Claim C5 counterexample: with limit 200, a 100-character fragment
followed by a 150-character one leaves a remaining budget of exactly 100;
the claim ("skipped only when the remaining budget is below the
100-character threshold") predicts truncation to the 100 remaining
characters plus the marker (total 215), but the source's `> 100` test
skips the fragment outright: the total stays 100 and no truncation marker
appears in the rendered block. -/
theorem c5_counterexample :
    (loadPromptsState 200
      [{ name := ("a.txt").data, content := List.replicate 100 'b' },
       { name := ("b.txt").data, content := List.replicate 150 'c' }]).total = 100
    ∧ pyContains truncMarker
        (load_prompts_context 200
          [{ name := ("a.txt").data, content := List.replicate 100 'b' },
           { name := ("b.txt").data, content := List.replicate 150 'c' }]) = false := by
  refine ⟨by decide, by decide⟩

/-- Claim C5 (amended): when appending a stripped fragment would exceed
the limit, the fragment is truncated to the remaining budget with the
truncation marker appended — but only when the remaining budget strictly
exceeds the 100-character threshold; at or below the threshold (rather
than only strictly below it) the fragment is skipped outright and
iteration continues.  After a truncation the consumed count exceeds the
limit, and from any such state every later fragment is skipped, so no
later source contributes content. -/
theorem c5_amended_truncation (limit : Nat) (st : LoadState) (f : PromptFile)
    (rest : List PromptFile)
    (hne : (pyStrip f.content).isEmpty = false)
    (hover : limit < st.total + (pyStrip f.content).length) :
    (loadStep limit st f =
      if 100 < limit - st.total then
        { parts := st.parts ++ [headerOf f,
            (pyStrip f.content).take (limit - st.total) ++ truncMarker],
          total := st.total + ((limit - st.total) + truncMarker.length),
          emitted := st.emitted ++ [(f,
            (pyStrip f.content).take (limit - st.total) ++ truncMarker)] }
      else st)
    ∧ (limit < st.total → List.foldl (loadStep limit) st rest = st) := by
  constructor
  · dsimp only [loadStep]
    rw [if_neg (by rw [hne]; simp)]
    rw [if_pos hover]
    by_cases hrem : 100 < limit - st.total
    · rw [if_pos hrem, if_pos hrem]
      have hle : limit - st.total ≤ (pyStrip f.content).length := by omega
      simp only [List.length_append, List.length_take, Nat.min_eq_left hle]
    · rw [if_neg hrem, if_neg hrem]
  · intro h
    exact loadFold_stuck limit rest st h

set_option maxRecDepth 100000 in
/-- Claim C5 witness: the amended step equation evaluated at a concrete
overflowing fragment (limit 200, 301 characters: truncated, consumed
becomes 215), and the stuck-fold clause evaluated at a state already past
the limit. -/
theorem c5_amended_truncation_witness :
    ((pyStrip (List.replicate 301 'b')).isEmpty = false
      ∧ 200 < loadInit.total + (pyStrip (List.replicate 301 'b')).length
      ∧ (loadStep 200 loadInit
          { name := ("a.txt").data, content := List.replicate 301 'b' }).total = 215)
    ∧ List.foldl (loadStep 200)
        { parts := [], total := 215, emitted := [] }
        [{ name := ("b.txt").data, content := List.replicate 50 'c' }]
      = { parts := [], total := 215, emitted := [] } := by
  constructor
  · refine ⟨by decide, by decide, ?_⟩
    have h := (c5_amended_truncation 200 loadInit
      { name := ("a.txt").data, content := List.replicate 301 'b' } []
      (by decide) (by decide)).1
    rw [h]
    decide
  · exact (c5_amended_truncation 200 { parts := [], total := 215, emitted := [] }
      { name := ("b.txt").data, content := List.replicate 50 'c' }
      [{ name := ("b.txt").data, content := List.replicate 50 'c' }]
      (by decide) (by decide)).2 (by decide)

/-- Claim C2 counterexample: minting succeeds with URL `"ab"` on a text
that already contains `"ab"` and one marker; the output contains two
occurrences of the URL, not `k = 1`, so the claimed occurrence count is
false as universally stated. -/
theorem c2_counterexample :
    pyCount linkMarker (("ab LINK_HERE").data) = 1
    ∧ (replace_links_core sampleCreds (MintOutcome.response (some (("ab").data)))
        (("ab LINK_HERE").data)).1 = ("ab ab").data
    ∧ pyCount (("ab").data) (("ab ab").data) = 2 := by
  refine ⟨by decide, by decide, by decide⟩

/-- Claim C2 (amended): when the marker occurs `k ≥ 1` times, the
credentials are complete with an integer workspace identifier, and
minting succeeds with a non-empty URL `U` none of whose characters occurs
in the input text, the substitutor starts exactly one mint request and
returns the input with every (greedy, non-overlapping) marker occurrence
replaced by `U`: the output is the marker-segments of the input joined by
`U` (all other characters unchanged), it contains no marker occurrence,
and it contains exactly `k` occurrences of `U`. -/
theorem c2_amended_replacement (creds : LinklyCreds) (wid U text : List Char)
    (hw : creds.linkly_workspace_id = some wid)
    (hc : credsTruthy creds = true)
    (hp : (pyInt wid).isSome = true)
    (hU : U ≠ [])
    (hk : 1 ≤ pyCount linkMarker text)
    (hdisj : ∀ c ∈ U, c ∉ text) :
    (replace_links_core creds (MintOutcome.response (some U)) text).2 = 1
    ∧ (replace_links_core creds (MintOutcome.response (some U)) text).1
        = pyReplace linkMarker U text
    ∧ pyReplace linkMarker U text = pyJoin U (pySplit linkMarker text)
    ∧ pyJoin linkMarker (pySplit linkMarker text) = text
    ∧ pyContains linkMarker
        ((replace_links_core creds (MintOutcome.response (some U)) text).1) = false
    ∧ pyCount U ((replace_links_core creds (MintOutcome.response (some U)) text).1)
        = pyCount linkMarker text := by
  have hmark : pyContains linkMarker text = true := pyContains_of_count _ _ hk
  have hUe : U.isEmpty = false := by
    cases U with
    | nil => exact absurd rfl hU
    | cons a as => rfl
  obtain ⟨z, hz⟩ := Option.isSome_iff_exists.mp hp
  have hcore : replace_links_core creds (MintOutcome.response (some U)) text
      = (pyReplace linkMarker U text, 1) := by
    unfold replace_links_core
    rw [hmark, hc, hw]
    simp [hz, hUe]
  have hrepl : pyReplace linkMarker U text = pyJoin U (pySplit linkMarker text) :=
    pyReplace_eq_pyJoin linkMarker U text.length text le_rfl
  have hid : pyJoin linkMarker (pySplit linkMarker text) = text :=
    pyJoin_pySplit linkMarker text.length text le_rfl
  have hmne : linkMarker ≠ [] := by decide
  have hsegs : ∀ seg ∈ pySplit linkMarker text, pyContains linkMarker seg = false :=
    pySplit_not_contains linkMarker hmne text.length text le_rfl
  have hup : ∀ c ∈ U, c ∉ linkMarker :=
    fun c hcU hcM => hdisj c hcU (mem_pat_of_count linkMarker text c hk hcM)
  have hsegdisj : ∀ seg ∈ pySplit linkMarker text, ∀ c ∈ seg, c ∉ U :=
    fun seg hseg c hcseg hcU =>
      hdisj c hcU (mem_of_pySplit linkMarker text seg c hseg hcseg)
  refine ⟨by rw [hcore], by rw [hcore], hrepl, hid, ?_, ?_⟩
  · rw [hcore]
    show pyContains linkMarker (pyReplace linkMarker U text) = false
    rw [hrepl]
    exact pyContains_pyJoin linkMarker U hmne hU hup (pySplit linkMarker text) hsegs
  · rw [hcore]
    show pyCount U (pyReplace linkMarker U text) = pyCount linkMarker text
    rw [hrepl]
    unfold pyCount
    rw [pySplit_pyJoin U hU (pySplit linkMarker text)
      (pySplit_ne_nil linkMarker text) hsegdisj]

/-- Claim C2 witness: two markers, URL `"xy"` sharing no character with
the text; the output is the text with both markers replaced, one request
started, no marker left, and exactly two URL occurrences. -/
theorem c2_amended_replacement_witness :
    (sampleCreds.linkly_workspace_id = some (("7").data)
      ∧ credsTruthy sampleCreds = true
      ∧ (pyInt (("7").data)).isSome = true
      ∧ (("xy").data : List Char) ≠ []
      ∧ 1 ≤ pyCount linkMarker (("A LINK_HERE B LINK_HERE").data)
      ∧ ∀ c ∈ (("xy").data : List Char), c ∉ (("A LINK_HERE B LINK_HERE").data : List Char))
    ∧ ((replace_links_core sampleCreds
          (MintOutcome.response (some (("xy").data)))
          (("A LINK_HERE B LINK_HERE").data)).2 = 1
      ∧ (replace_links_core sampleCreds
          (MintOutcome.response (some (("xy").data)))
          (("A LINK_HERE B LINK_HERE").data)).1
        = pyReplace linkMarker (("xy").data) (("A LINK_HERE B LINK_HERE").data)
      ∧ pyReplace linkMarker (("xy").data) (("A LINK_HERE B LINK_HERE").data)
        = pyJoin (("xy").data) (pySplit linkMarker (("A LINK_HERE B LINK_HERE").data))
      ∧ pyJoin linkMarker (pySplit linkMarker (("A LINK_HERE B LINK_HERE").data))
        = ("A LINK_HERE B LINK_HERE").data
      ∧ pyContains linkMarker
          ((replace_links_core sampleCreds
            (MintOutcome.response (some (("xy").data)))
            (("A LINK_HERE B LINK_HERE").data)).1) = false
      ∧ pyCount (("xy").data)
          ((replace_links_core sampleCreds
            (MintOutcome.response (some (("xy").data)))
            (("A LINK_HERE B LINK_HERE").data)).1)
        = pyCount linkMarker (("A LINK_HERE B LINK_HERE").data)) :=
  ⟨⟨rfl, by decide, by decide, by decide, by decide, by decide⟩,
   c2_amended_replacement sampleCreds (("7").data) (("xy").data)
     (("A LINK_HERE B LINK_HERE").data) rfl (by decide) (by decide) (by decide)
     (by decide) (by decide)⟩
